import Mathlib

/-!
Verification of the Interview Skill-Coverage Session Engine and of the
AIInterviewRoom front-end component of the AI-Hackathon-Fall25 repository.

The engine (`skill_interview.py`, `SimpleInterviewSession`) is exercised by the
front end through the `/interview/start`, `/interview/answer` and
`/interview/complete` endpoints; its own source is not part of this tree, so the
engine is modelled from the specification.  The AIInterviewRoom component
(`src/frontend/src/components/AIInterviewRoom.tsx`) is embedded directly from
its source.
-/

/-- Decidable equality for `Except`, used to evaluate the engine's results on
concrete inputs. -/
instance {ε α : Type} [DecidableEq ε] [DecidableEq α] : DecidableEq (Except ε α)
  | Except.ok a, Except.ok b =>
    if h : a = b then isTrue (congrArg Except.ok h)
    else isFalse (fun he => h (Except.ok.inj he))
  | Except.ok _, Except.error _ => isFalse (fun he => Except.noConfusion he)
  | Except.error _, Except.ok _ => isFalse (fun he => Except.noConfusion he)
  | Except.error a, Except.error b =>
    if h : a = b then isTrue (congrArg Except.error h)
    else isFalse (fun he => h (Except.error.inj he))

namespace InterviewEngine

/-- Modelled from the spec: session lifecycle status enum of the missing
`SimpleInterviewSession` engine, §3 of the spec (ACTIVE → COMPLETED). -/
inductive SessionStatus
  | ACTIVE
  | COMPLETED
deriving DecidableEq, Repr

/-- Modelled from the spec: a Skill is a name/category pair (§3). -/
structure Skill where
  name : String
  category : String
deriving DecidableEq, Repr

/-- Modelled from the spec: the first-detection record stored in
`skills_detected` (§3): question index and timestamp of first detection. -/
structure DetectionRecord where
  question_index : Nat
  timestamp : Nat
deriving DecidableEq, Repr

/-- Modelled from the spec: one append-only transcript record (§3). -/
structure TranscriptRecord where
  question_index : Nat
  raw_text : String
  cleaned_text : String
  detected_skills_this_turn : List String
deriving DecidableEq, Repr

/-- Modelled from the spec: the SessionState of the missing engine (§3).
`skills_detected` is an ordered association list (insertion order is
first-detection order). -/
structure SessionState where
  skills : List Skill
  questions : List String
  current_question_index : Nat
  skills_detected : List (String × DetectionRecord)
  transcripts : List TranscriptRecord
  status : SessionStatus
  created_at : Nat
  completed_at : Option Nat
deriving DecidableEq, Repr

/-- Modelled from the spec: errors surfaced unrecovered by `submitAnswer`
(§7). -/
inductive SubmitError
  | InvalidStateError
  | StaleQuestionError
deriving DecidableEq, Repr

/-- Modelled from the spec: the cumulative progress payload of an
`AnswerResult` (§4.2). -/
structure Progress where
  detected_count : Nat
  total_count : Nat
  percentage : Nat
deriving DecidableEq, Repr

/-- Modelled from the spec: the `AnswerResult` returned by `submitAnswer`
(§4.2); `transcription_failed` records that `TranscriptionFailedError` was
surfaced alongside the normal payload (§7, scenario 4). -/
structure AnswerResult where
  transcript : String
  detected_skills_this_turn : List String
  progress : Progress
  has_next_question : Bool
  next_question_index : Option Nat
  all_skills_detected : Bool
  transcription_failed : Bool
deriving DecidableEq, Repr

/-- Modelled from the spec: outcome of the Transcriber collaborator for one
turn (§6): either a transcript text or total failure. -/
inductive TranscriptionOutcome
  | ok (text : String)
  | failed
deriving DecidableEq, Repr

/-- The ordered list of skill names recorded as detected. -/
def detectedKeys (s : SessionState) : List String :=
  s.skills_detected.map Prod.fst

/-- The fixed list of skill names of the session. -/
def skillNames (s : SessionState) : List String :=
  s.skills.map Skill.name

/-- First-match lookup in the `skills_detected` association list. -/
def lookupKey : List (String × DetectionRecord) → String → Option DetectionRecord
  | [], _ => none
  | p :: rest, n => if p.1 = n then some p.2 else lookupKey rest n

/-- Modelled from the spec: idempotent merge of this turn's detections into
`skills_detected` (§4.2 step 5): a name already present is a no-op, a new name
is appended with the current question index and timestamp. -/
def mergeDetections (detected : List (String × DetectionRecord)) :
    List String → Nat → Nat → List (String × DetectionRecord)
  | [], _, _ => detected
  | n :: rest, qIdx, ts =>
    if n ∈ detected.map Prod.fst then
      mergeDetections detected rest qIdx ts
    else
      mergeDetections (detected ++ [(n, ⟨qIdx, ts⟩)]) rest qIdx ts

/-- Modelled from the spec: the integer-rounded coverage percentage of the
progress payload (§4.2). -/
def percentageOf (d t : Nat) : Nat :=
  (100 * d + t / 2) / t

/-- Modelled from the spec: `start` (§4.2) creates an ACTIVE session with
question index 0 and empty detection/transcript collections. -/
def startSession (skills : List Skill) (questions : List String) (now : Nat) :
    SessionState :=
  { skills := skills
    questions := questions
    current_question_index := 0
    skills_detected := []
    transcripts := []
    status := SessionStatus.ACTIVE
    created_at := now
    completed_at := none }

/-- Modelled from the spec: the raw text produced by the Transcriber for one
turn (§4.2 step 2): total failure is treated like empty text. -/
def turnRaw : TranscriptionOutcome → String
  | TranscriptionOutcome.ok text => text
  | TranscriptionOutcome.failed => ""

/-- Modelled from the spec: collaborator stages of an accepted turn (§4.2
steps 2–4): transcribe (failure/empty gives empty text), clean with
pass-through degrade when the cleaner is unavailable, detect over only the
currently undetected candidate names with out-of-set names silently
discarded.  Returns (raw text, cleaned text, this turn's detections). -/
def turnExtract (s : SessionState) (trans : TranscriptionOutcome)
    (cleanerAvailable : Bool) (cleaner : String → String)
    (detector : String → List String → List String) :
    String × String × List String :=
  let raw : String := turnRaw trans
  let transcriptionFailed : Bool := raw = ""
  let cleaned : String :=
    if transcriptionFailed then ""
    else if cleanerAvailable then cleaner raw else raw
  let candidates : List String :=
    (s.skills.map Skill.name).filter
      (fun n => n ∉ s.skills_detected.map Prod.fst)
  let turnDetections : List String :=
    if transcriptionFailed then []
    else (detector cleaned candidates).filter (fun n => n ∈ candidates)
  (raw, cleaned, turnDetections)

/-- Modelled from the spec: state-mutating stages of an accepted turn (§4.2
steps 5–7): merge the detections idempotently, append the transcript record,
then the ordered termination check — full coverage first, question exhaustion
second, otherwise advance the question index. -/
def finishTurn (s : SessionState) (raw cleaned : String) (tds : List String)
    (ts : Nat) : AnswerResult × SessionState :=
  let newDetected :=
    mergeDetections s.skills_detected tds s.current_question_index ts
  let newTranscripts :=
    s.transcripts ++ [⟨s.current_question_index, raw, cleaned, tds⟩]
  let prog : Progress :=
    ⟨newDetected.length, s.skills.length,
     percentageOf newDetected.length s.skills.length⟩
  let transcriptionFailed : Bool := raw = ""
  if ∀ sk ∈ s.skills, sk.name ∈ newDetected.map Prod.fst then
    (⟨cleaned, tds, prog, false, none, true, transcriptionFailed⟩,
     { s with skills_detected := newDetected, transcripts := newTranscripts,
              status := SessionStatus.COMPLETED, completed_at := some ts })
  else if s.current_question_index = s.questions.length - 1 then
    (⟨cleaned, tds, prog, false, none, false, transcriptionFailed⟩,
     { s with skills_detected := newDetected, transcripts := newTranscripts,
              status := SessionStatus.COMPLETED, completed_at := some ts })
  else
    (⟨cleaned, tds, prog, true,
      some (s.current_question_index + 1), false, transcriptionFailed⟩,
     { s with skills_detected := newDetected, transcripts := newTranscripts,
              current_question_index := s.current_question_index + 1 })

/-- Modelled from the spec: the full answer pipeline of an accepted
`submitAnswer` call (§4.2 steps 2–7). -/
def processTurn (s : SessionState) (trans : TranscriptionOutcome)
    (cleanerAvailable : Bool) (cleaner : String → String)
    (detector : String → List String → List String) (ts : Nat) :
    AnswerResult × SessionState :=
  let e := turnExtract s trans cleanerAvailable cleaner detector
  finishTurn s e.1 e.2.1 e.2.2 ts

/-- Modelled from the spec: `submitAnswer` (§4.2): validate the session is
ACTIVE (else `InvalidStateError`), validate the question index matches (else
`StaleQuestionError`, no mutation), then run the turn pipeline.  Returns the
surfaced result or error together with the (possibly updated) state. -/
def submitAnswer (s : SessionState) (question_index : Nat)
    (trans : TranscriptionOutcome) (cleanerAvailable : Bool)
    (cleaner : String → String) (detector : String → List String → List String)
    (ts : Nat) : Except SubmitError AnswerResult × SessionState :=
  if s.status ≠ SessionStatus.ACTIVE then
    (Except.error SubmitError.InvalidStateError, s)
  else if question_index ≠ s.current_question_index then
    (Except.error SubmitError.StaleQuestionError, s)
  else
    let out := processTurn s trans cleanerAvailable cleaner detector ts
    (Except.ok out.1, out.2)

/-- Modelled from the spec: one entry of `skills_has` in the Report (§4.3). -/
structure ReportEntry where
  skill : String
  category : String
  detected_at : Nat
deriving DecidableEq, Repr

/-- Modelled from the spec: one entry of `skills_missing` in the Report
(§4.3). -/
structure MissingEntry where
  skill : String
  category : String
deriving DecidableEq, Repr

/-- Modelled from the spec: the final Report (§4.3). -/
structure Report where
  skills_has : List ReportEntry
  skills_missing : List MissingEntry
  coverage : ℚ
  total_skills : Nat
  duration_seconds : Nat
  answers : Nat
deriving DecidableEq, Repr

/-- Modelled from the spec: the pure Report Builder (§4.3).  `skills_has` is in
first-detection order, `skills_missing` in original skill-list order minus the
detected ones, `coverage` the detected fraction in 0..1. -/
def buildReport (s : SessionState) : Report :=
  let has : List ReportEntry :=
    s.skills_detected.filterMap (fun p =>
      (s.skills.find? (fun sk => sk.name = p.1)).map
        (fun sk => ⟨sk.name, sk.category, p.2.timestamp⟩))
  let missing : List MissingEntry :=
    (s.skills.filter (fun sk => sk.name ∉ s.skills_detected.map Prod.fst)).map
      (fun sk => ⟨sk.name, sk.category⟩)
  { skills_has := has
    skills_missing := missing
    coverage := (s.skills_detected.length : ℚ) / (s.skills.length : ℚ)
    total_skills := s.skills.length
    duration_seconds := (s.completed_at.getD s.created_at) - s.created_at
    answers := s.transcripts.length }

/-- Modelled from the spec: `complete` (§4.2): forces COMPLETED if not already,
then returns the derived report; on an already-COMPLETED session it just
rebuilds the report from the unchanged state. -/
def complete (s : SessionState) (now : Nat) : Report × SessionState :=
  if s.status = SessionStatus.COMPLETED then
    (buildReport s, s)
  else
    let s' := { s with status := SessionStatus.COMPLETED, completed_at := some now }
    (buildReport s', s')

/-- Modelled from the spec: collaborator inputs of one `submitAnswer` call,
used to state properties of sequences of turns. -/
structure TurnInput where
  question_index : Nat
  trans : TranscriptionOutcome
  cleanerAvailable : Bool
  cleaner : String → String
  detector : String → List String → List String
  ts : Nat

/-- Run a sequence of `submitAnswer` calls; also counts the accepted
(non-error) calls. -/
def runTurns (s : SessionState) : List TurnInput → SessionState × Nat
  | [] => (s, 0)
  | i :: rest =>
    let out := submitAnswer s i.question_index i.trans i.cleanerAvailable
      i.cleaner i.detector i.ts
    let next := runTurns out.2 rest
    (next.1, next.2 + (if out.1.isOk then 1 else 0))

/-- The states reachable through the engine interface: a freshly started
session (non-empty skill and question lists, skill names unique within the
session, per §3–4.2), followed by any `submitAnswer` and `complete` calls with
arbitrary collaborator behaviour. -/
inductive Reachable : SessionState → Prop
  | start (skills : List Skill) (questions : List String) (now : Nat)
      (hs : skills ≠ []) (hq : questions ≠ [])
      (hnd : (skills.map Skill.name).Nodup) :
      Reachable (startSession skills questions now)
  | submit (s : SessionState) (qi : Nat) (trans : TranscriptionOutcome)
      (av : Bool) (cl : String → String)
      (det : String → List String → List String) (ts : Nat)
      (hr : Reachable s) :
      Reachable (submitAnswer s qi trans av cl det ts).2
  | done (s : SessionState) (now : Nat) (hr : Reachable s) :
      Reachable (complete s now).2

end InterviewEngine

namespace AIInterviewRoom

/-- A skill object as returned by the `/ai/extract-skills` endpoint
(`AIInterviewRoom.tsx`, interface `Skill`). -/
structure RoomSkill where
  skill : String
  category : String
deriving DecidableEq, Repr

/-- A question record built during initialization
(`AIInterviewRoom.tsx`, interface `Question`). -/
structure RoomQuestion where
  id : Nat
  text : String
  expectedKeywords : List String
deriving DecidableEq, Repr

/-- The analysis result of one answer
(`AIInterviewRoom.tsx`, interface `AnalysisResult`). -/
structure AnalysisResult where
  isCorrect : Bool
  transcript : String
  feedback : String
  detectedKeywords : List String
  missingKeywords : List String
deriving DecidableEq, Repr

/-- The indexed question mapping of `initializeInterview`
(`AIInterviewRoom.tsx` lines 121–127): question at zero-based index `idx` gets
`id = idx + 1` and `expectedKeywords = skills.slice(idx*2, idx*2+3)` mapped to
skill names; `formatQuestionsFrom skills k qs` maps `qs` starting at index
`k`. -/
def formatQuestionsFrom (skills : List RoomSkill) : Nat → List String → List RoomQuestion
  | _, [] => []
  | idx, q :: rest =>
    ⟨idx + 1, q, ((skills.drop (idx * 2)).take 3).map RoomSkill.skill⟩
      :: formatQuestionsFrom skills (idx + 1) rest

/-- The `formattedQuestions` construction of `initializeInterview`. -/
def formatQuestions (skills : List RoomSkill) (questions : List String) :
    List RoomQuestion :=
  formatQuestionsFrom skills 0 questions

/-- The `expected_keywords` form field appended by `analyzeResponse`
(`AIInterviewRoom.tsx` lines 301–303): present (comma-joined) only when the
question's keyword list is non-empty, omitted entirely otherwise. -/
def expectedKeywordsField (q : RoomQuestion) : Option String :=
  if q.expectedKeywords.length > 0 then
    some (String.intercalate "," q.expectedKeywords)
  else
    none

/-- The component state of AIInterviewRoom relevant to result accumulation:
question list, current index, `allResults`, the result display flags, and the
argument passed to `onComplete` once the interview finishes. -/
structure RoomState where
  questions : List RoomQuestion
  currentQuestionIndex : Nat
  allResults : List AnalysisResult
  showResult : Bool
  analysisResult : Option AnalysisResult
  completedWith : Option (List AnalysisResult)
deriving Repr

/-- The user-visible events that mutate the accumulation state: a successful
`analyzeResponse` (its `try` block reaching `setAllResults`), the `Try Again`
button (`handleRetry`), and the `Next Question` / `Complete Interview` button
(`handleNextQuestion`). -/
inductive RoomEvent
  | analyzeSuccess (r : AnalysisResult)
  | retry
  | next
deriving Repr

/-- One state transition of AIInterviewRoom (`AIInterviewRoom.tsx`:
`analyzeResponse` lines 330–334, `handleRetry` lines 358–363,
`handleNextQuestion` lines 346–356). -/
def roomStep (st : RoomState) : RoomEvent → RoomState
  | RoomEvent.analyzeSuccess r =>
    { st with allResults := st.allResults ++ [r],
              analysisResult := some r, showResult := true }
  | RoomEvent.retry =>
    { st with showResult := false, analysisResult := none }
  | RoomEvent.next =>
    if st.currentQuestionIndex < st.questions.length - 1 then
      { st with showResult := false, analysisResult := none,
                currentQuestionIndex := st.currentQuestionIndex + 1 }
    else
      { st with showResult := false, analysisResult := none,
                completedWith := some st.allResults }

/-- Run a sequence of room events. -/
def runRoom (st : RoomState) (events : List RoomEvent) : RoomState :=
  events.foldl roomStep st

/-- Whether the `Try Again` button is rendered (`AIInterviewRoom.tsx` lines
558 and 617): only while a result is shown and that latest result has
`isCorrect = false`. -/
def canRetry (st : RoomState) : Bool :=
  st.showResult &&
    (match st.analysisResult with
     | some r => !r.isCorrect
     | none => false)

/-- Number of `analyzeSuccess` events in a trace. -/
def countAnalyzed (events : List RoomEvent) : Nat :=
  events.countP (fun e =>
    match e with
    | RoomEvent.analyzeSuccess _ => true
    | _ => false)

end AIInterviewRoom

namespace InterviewEngine

/-- Concrete one-skill session used to instantiate the engine theorems. -/
def sampleSkills : List Skill := [⟨"welding", "trade"⟩]

/-- A freshly started session over `sampleSkills` and two questions. -/
def sampleSession : SessionState := startSession sampleSkills ["q1", "q2"] 0

/-- A detector that confirms every offered candidate. -/
def sampleDetector : String → List String → List String := fun _ cands => cands

/-- A concrete accepted `submitAnswer` call on `sampleSession`. -/
def sampleOut : Except SubmitError AnswerResult × SessionState :=
  submitAnswer sampleSession 0 (TranscriptionOutcome.ok "I weld") true id
    sampleDetector 5

/-- A two-skill session used for progress-monotonicity instantiations. -/
def twoSkillSession : SessionState :=
  startSession [⟨"welding", "trade"⟩, ⟨"osha", "safety"⟩] ["q1", "q2"] 0

/-- A detector that always reports the single name `welding`. -/
def detectWelding : String → List String → List String := fun _ _ => ["welding"]

/-- A detector that always reports the single name `osha`. -/
def detectOsha : String → List String → List String := fun _ _ => ["osha"]

/-- A mid-interview session that has already detected `welding` at question 0,
timestamp 3. -/
def midSession : SessionState :=
  { skills := [⟨"welding", "trade"⟩, ⟨"osha", "safety"⟩]
    questions := ["q1", "q2"]
    current_question_index := 1
    skills_detected := [("welding", ⟨0, 3⟩)]
    transcripts := [⟨0, "x", "x", ["welding"]⟩]
    status := SessionStatus.ACTIVE
    created_at := 0
    completed_at := none }

/-- `sampleSession` already forced to COMPLETED, for stale-call analysis. -/
def completedSample : SessionState :=
  { sampleSession with status := SessionStatus.COMPLETED }

/-- The answer result of `sampleOut`. -/
def sampleResult : AnswerResult :=
  ⟨"I weld", ["welding"], ⟨1, 1, 100⟩, false, none, true, false⟩

/-- The final session state of `sampleOut`. -/
def sampleFinal : SessionState :=
  { skills := sampleSkills
    questions := ["q1", "q2"]
    current_question_index := 0
    skills_detected := [("welding", ⟨0, 5⟩)]
    transcripts := [⟨0, "I weld", "I weld", ["welding"]⟩]
    status := SessionStatus.COMPLETED
    created_at := 0
    completed_at := some 5 }

/-- Result of submitting question 1 of `midSession` with an osha answer. -/
def midResult : AnswerResult :=
  ⟨"osha talk", ["osha"], ⟨2, 2, 100⟩, false, none, true, false⟩

/-- Final state of submitting question 1 of `midSession`: the `welding` record
keeps its original question index 0 and timestamp 3. -/
def midFinal : SessionState :=
  { skills := [⟨"welding", "trade"⟩, ⟨"osha", "safety"⟩]
    questions := ["q1", "q2"]
    current_question_index := 1
    skills_detected := [("welding", ⟨0, 3⟩), ("osha", ⟨1, 8⟩)]
    transcripts := [⟨0, "x", "x", ["welding"]⟩,
                    ⟨1, "osha talk", "osha talk", ["osha"]⟩]
    status := SessionStatus.COMPLETED
    created_at := 0
    completed_at := some 8 }

/-- First-turn result on `twoSkillSession`: one of two skills, 50 percent. -/
def turn1Result : AnswerResult :=
  ⟨"a", ["welding"], ⟨1, 2, 50⟩, true, some 1, false, false⟩

/-- State after the first turn on `twoSkillSession`. -/
def turn1State : SessionState :=
  { skills := [⟨"welding", "trade"⟩, ⟨"osha", "safety"⟩]
    questions := ["q1", "q2"]
    current_question_index := 1
    skills_detected := [("welding", ⟨0, 7⟩)]
    transcripts := [⟨0, "a", "a", ["welding"]⟩]
    status := SessionStatus.ACTIVE
    created_at := 0
    completed_at := none }

/-- Second-turn result on `twoSkillSession`: both skills, 100 percent. -/
def turn2Result : AnswerResult :=
  ⟨"b", ["osha"], ⟨2, 2, 100⟩, false, none, true, false⟩

/-- State after the second turn on `twoSkillSession`. -/
def turn2State : SessionState :=
  { skills := [⟨"welding", "trade"⟩, ⟨"osha", "safety"⟩]
    questions := ["q1", "q2"]
    current_question_index := 1
    skills_detected := [("welding", ⟨0, 7⟩), ("osha", ⟨1, 9⟩)]
    transcripts := [⟨0, "a", "a", ["welding"]⟩, ⟨1, "b", "b", ["osha"]⟩]
    status := SessionStatus.COMPLETED
    created_at := 0
    completed_at := some 9 }

end InterviewEngine

namespace AIInterviewRoom

/-- Five sample extracted skills for question formatting instantiations. -/
def sampleRoomSkills : List RoomSkill :=
  [⟨"s0", "c"⟩, ⟨"s1", "c"⟩, ⟨"s2", "c"⟩, ⟨"s3", "c"⟩, ⟨"s4", "c"⟩]

/-- Four sample generated question texts. -/
def sampleRoomQs : List String := ["q0", "q1", "q2", "q3"]

/-- A one-question room in its initial accumulation state. -/
def sampleRoom : RoomState := ⟨[⟨1, "q", ["s0"]⟩], 0, [], false, none, none⟩

/-- A failed analysis result (triggers the Try Again offer). -/
def badResult : AnalysisResult := ⟨false, "t", "fb", [], []⟩

/-- A successful analysis result. -/
def goodResult : AnalysisResult := ⟨true, "t2", "fb2", ["s0"], []⟩

/-- A trace that answers the single question twice (retry after a failed
attempt) and then completes. -/
def sampleTrace : List RoomEvent :=
  [RoomEvent.analyzeSuccess badResult, RoomEvent.retry,
   RoomEvent.analyzeSuccess goodResult, RoomEvent.next]

end AIInterviewRoom

namespace InterviewEngine

theorem mergeDetections_eq_append (detected : List (String × DetectionRecord))
    (names : List String) (qIdx ts : Nat) :
    ∃ extra, mergeDetections detected names qIdx ts = detected ++ extra ∧
      ∀ p ∈ extra, p.1 ∉ detected.map Prod.fst ∧ p.1 ∈ names := by
  induction names generalizing detected with
  | nil => exact ⟨[], by simp [mergeDetections]⟩
  | cons n rest ih =>
    by_cases h : n ∈ detected.map Prod.fst
    · obtain ⟨extra, heq, hp⟩ := ih detected
      refine ⟨extra, by simpa [mergeDetections, h] using heq, ?_⟩
      exact fun p hp2 => ⟨(hp p hp2).1, List.mem_cons_of_mem _ (hp p hp2).2⟩
    · obtain ⟨extra, heq, hp⟩ := ih (detected ++ [(n, ⟨qIdx, ts⟩)])
      refine ⟨(n, ⟨qIdx, ts⟩) :: extra, ?_, ?_⟩
      · have : detected ++ (n, (⟨qIdx, ts⟩ : DetectionRecord)) :: extra =
            (detected ++ [(n, ⟨qIdx, ts⟩)]) ++ extra := by simp
        rw [this]
        simpa [mergeDetections, h] using heq
      · rintro p hp2
        rcases List.mem_cons.mp hp2 with rfl | hmem
        · exact ⟨h, List.mem_cons_self _ _⟩
        · have hpm := hp p hmem
          refine ⟨fun hc => hpm.1 ?_, List.mem_cons_of_mem _ hpm.2⟩
          simp only [List.map_append, List.mem_append]
          exact Or.inl hc

theorem mergeDetections_keys_nodup (detected : List (String × DetectionRecord))
    (names : List String) (qIdx ts : Nat)
    (h : (detected.map Prod.fst).Nodup) :
    ((mergeDetections detected names qIdx ts).map Prod.fst).Nodup := by
  induction names generalizing detected with
  | nil => simpa [mergeDetections] using h
  | cons n rest ih =>
    by_cases hn : n ∈ detected.map Prod.fst
    · simpa [mergeDetections, hn] using ih detected h
    · have h2 : ((detected ++ [(n, (⟨qIdx, ts⟩ : DetectionRecord))]).map Prod.fst).Nodup := by
        simp [List.nodup_append, h, hn]
      simpa [mergeDetections, hn] using ih _ h2

theorem lookupKey_append_left (d e : List (String × DetectionRecord)) (n : String)
    (h : n ∈ d.map Prod.fst) : lookupKey (d ++ e) n = lookupKey d n := by
  induction d with
  | nil => simp at h
  | cons p rest ih =>
    by_cases hp : p.1 = n
    · simp [lookupKey, hp]
    · have hmem : n ∈ rest.map Prod.fst := by
        rw [List.map_cons] at h
        rcases List.mem_cons.mp h with h1 | h1
        · exact absurd h1.symm hp
        · exact h1
      simp [lookupKey, hp, ih hmem]

theorem mergeDetections_lookup (detected : List (String × DetectionRecord))
    (names : List String) (qIdx ts : Nat) (n : String)
    (h : n ∈ detected.map Prod.fst) :
    lookupKey (mergeDetections detected names qIdx ts) n = lookupKey detected n := by
  obtain ⟨extra, heq, _⟩ := mergeDetections_eq_append detected names qIdx ts
  rw [heq, lookupKey_append_left _ _ _ h]

theorem mergeDetections_length_ge (detected : List (String × DetectionRecord))
    (names : List String) (qIdx ts : Nat) :
    detected.length ≤ (mergeDetections detected names qIdx ts).length := by
  obtain ⟨extra, heq, _⟩ := mergeDetections_eq_append detected names qIdx ts
  rw [heq]
  simp

theorem submitAnswer_not_active (s : SessionState) (qi : Nat)
    (trans : TranscriptionOutcome) (av : Bool) (cl : String → String)
    (det : String → List String → List String) (ts : Nat)
    (h : s.status ≠ SessionStatus.ACTIVE) :
    submitAnswer s qi trans av cl det ts =
      (Except.error SubmitError.InvalidStateError, s) := by
  simp [submitAnswer, h]

theorem submitAnswer_stale (s : SessionState) (qi : Nat)
    (trans : TranscriptionOutcome) (av : Bool) (cl : String → String)
    (det : String → List String → List String) (ts : Nat)
    (h : s.status = SessionStatus.ACTIVE) (hq : qi ≠ s.current_question_index) :
    submitAnswer s qi trans av cl det ts =
      (Except.error SubmitError.StaleQuestionError, s) := by
  simp [submitAnswer, h, hq]

theorem submitAnswer_accepted (s : SessionState) (qi : Nat)
    (trans : TranscriptionOutcome) (av : Bool) (cl : String → String)
    (det : String → List String → List String) (ts : Nat)
    (h : s.status = SessionStatus.ACTIVE) (hq : qi = s.current_question_index) :
    submitAnswer s qi trans av cl det ts =
      (Except.ok (processTurn s trans av cl det ts).1,
       (processTurn s trans av cl det ts).2) := by
  simp [submitAnswer, h, hq]

theorem finishTurn_skills (s : SessionState) (raw cleaned : String)
    (tds : List String) (ts : Nat) :
    (finishTurn s raw cleaned tds ts).2.skills = s.skills := by
  simp only [finishTurn]
  split_ifs <;> rfl

theorem finishTurn_questions (s : SessionState) (raw cleaned : String)
    (tds : List String) (ts : Nat) :
    (finishTurn s raw cleaned tds ts).2.questions = s.questions := by
  simp only [finishTurn]
  split_ifs <;> rfl

theorem finishTurn_detected (s : SessionState) (raw cleaned : String)
    (tds : List String) (ts : Nat) :
    (finishTurn s raw cleaned tds ts).2.skills_detected =
      mergeDetections s.skills_detected tds s.current_question_index ts := by
  simp only [finishTurn]
  split_ifs <;> rfl

theorem finishTurn_result_tds (s : SessionState) (raw cleaned : String)
    (tds : List String) (ts : Nat) :
    (finishTurn s raw cleaned tds ts).1.detected_skills_this_turn = tds := by
  simp only [finishTurn]
  split_ifs <;> rfl

theorem finishTurn_transcripts (s : SessionState) (raw cleaned : String)
    (tds : List String) (ts : Nat) :
    (finishTurn s raw cleaned tds ts).2.transcripts =
      s.transcripts ++ [⟨s.current_question_index, raw, cleaned, tds⟩] := by
  simp only [finishTurn]
  split_ifs <;> rfl

theorem finishTurn_progress (s : SessionState) (raw cleaned : String)
    (tds : List String) (ts : Nat) :
    (finishTurn s raw cleaned tds ts).1.progress =
      ⟨(mergeDetections s.skills_detected tds s.current_question_index ts).length,
       s.skills.length,
       percentageOf
         (mergeDetections s.skills_detected tds s.current_question_index ts).length
         s.skills.length⟩ := by
  simp only [finishTurn]
  split_ifs <;> rfl

theorem finishTurn_tfailed (s : SessionState) (raw cleaned : String)
    (tds : List String) (ts : Nat) :
    (finishTurn s raw cleaned tds ts).1.transcription_failed =
      decide (raw = "") := by
  simp only [finishTurn]
  split_ifs <;> rfl

theorem finishTurn_advance (s : SessionState) (raw cleaned : String)
    (tds : List String) (ts : Nat) :
    (finishTurn s raw cleaned tds ts).2.status = SessionStatus.COMPLETED ∨
    (finishTurn s raw cleaned tds ts).2.current_question_index =
      s.current_question_index + 1 := by
  simp only [finishTurn]
  split_ifs
  · exact Or.inl rfl
  · exact Or.inl rfl
  · exact Or.inr rfl

theorem finishTurn_covered (s : SessionState) (raw cleaned : String)
    (tds : List String) (ts : Nat)
    (h : ∀ sk ∈ s.skills, sk.name ∈
      (mergeDetections s.skills_detected tds s.current_question_index ts).map
        Prod.fst) :
    (finishTurn s raw cleaned tds ts).2.status = SessionStatus.COMPLETED ∧
    (finishTurn s raw cleaned tds ts).1.all_skills_detected = true := by
  simp only [finishTurn]
  rw [if_pos h]
  exact ⟨rfl, rfl⟩

theorem finishTurn_exhausted (s : SessionState) (raw cleaned : String)
    (tds : List String) (ts : Nat)
    (h : ¬ ∀ sk ∈ s.skills, sk.name ∈
      (mergeDetections s.skills_detected tds s.current_question_index ts).map
        Prod.fst)
    (hlast : s.current_question_index = s.questions.length - 1) :
    (finishTurn s raw cleaned tds ts).2.status = SessionStatus.COMPLETED ∧
    (finishTurn s raw cleaned tds ts).1.all_skills_detected = false := by
  simp only [finishTurn]
  rw [if_neg h, if_pos hlast]
  exact ⟨rfl, rfl⟩

theorem finishTurn_advanceIdx (s : SessionState) (raw cleaned : String)
    (tds : List String) (ts : Nat)
    (h : ¬ ∀ sk ∈ s.skills, sk.name ∈
      (mergeDetections s.skills_detected tds s.current_question_index ts).map
        Prod.fst)
    (hlast : s.current_question_index ≠ s.questions.length - 1) :
    (finishTurn s raw cleaned tds ts).2.status = s.status ∧
    (finishTurn s raw cleaned tds ts).2.current_question_index =
      s.current_question_index + 1 ∧
    (finishTurn s raw cleaned tds ts).1.all_skills_detected = false := by
  simp only [finishTurn]
  rw [if_neg h, if_neg hlast]
  exact ⟨rfl, rfl, rfl⟩

theorem turnExtract_mem (s : SessionState) (trans : TranscriptionOutcome)
    (av : Bool) (cl : String → String)
    (det : String → List String → List String) :
    ∀ n ∈ (turnExtract s trans av cl det).2.2,
      n ∈ s.skills.map Skill.name ∧ n ∉ s.skills_detected.map Prod.fst := by
  intro n hn
  simp only [turnExtract] at hn
  split_ifs at hn
  · simp at hn
  all_goals
    have h2 : n ∈ (s.skills.map Skill.name).filter
        (fun n => n ∉ s.skills_detected.map Prod.fst) := by
      have := (List.mem_filter.mp hn).2
      exact of_decide_eq_true this
  all_goals
    have h3 := List.mem_filter.mp h2
  all_goals exact ⟨h3.1, of_decide_eq_true h3.2⟩

theorem turnExtract_failed (s : SessionState) (trans : TranscriptionOutcome)
    (av : Bool) (cl : String → String)
    (det : String → List String → List String)
    (h : turnRaw trans = "") :
    turnExtract s trans av cl det = ("", "", []) := by
  simp [turnExtract, h]

theorem mergeDetections_keys_subset (detected : List (String × DetectionRecord))
    (names : List String) (qIdx ts : Nat) (k : String)
    (hk : k ∈ (mergeDetections detected names qIdx ts).map Prod.fst) :
    k ∈ detected.map Prod.fst ∨ k ∈ names := by
  obtain ⟨extra, heq, hp⟩ := mergeDetections_eq_append detected names qIdx ts
  rw [heq] at hk
  simp only [List.map_append, List.mem_append] at hk
  rcases hk with h | h
  · exact Or.inl h
  · obtain ⟨p, hpe, rfl⟩ := List.mem_map.mp h
    exact Or.inr (hp p hpe).2

theorem processTurn_eq (s : SessionState) (trans : TranscriptionOutcome)
    (av : Bool) (cl : String → String)
    (det : String → List String → List String) (ts : Nat) :
    processTurn s trans av cl det ts =
      finishTurn s (turnExtract s trans av cl det).1
        (turnExtract s trans av cl det).2.1
        (turnExtract s trans av cl det).2.2 ts := rfl

theorem submitAnswer_state_cases (s : SessionState) (qi : Nat)
    (trans : TranscriptionOutcome) (av : Bool) (cl : String → String)
    (det : String → List String → List String) (ts : Nat) :
    (submitAnswer s qi trans av cl det ts).2 = s ∨
    (submitAnswer s qi trans av cl det ts).2 =
      (processTurn s trans av cl det ts).2 := by
  by_cases hA : s.status = SessionStatus.ACTIVE
  · by_cases hq : qi = s.current_question_index
    · right
      rw [submitAnswer_accepted s qi trans av cl det ts hA hq]
    · left
      rw [submitAnswer_stale s qi trans av cl det ts hA hq]
  · left
    rw [submitAnswer_not_active s qi trans av cl det ts hA]

theorem complete_fields (s : SessionState) (now : Nat) :
    (complete s now).2.skills = s.skills ∧
    (complete s now).2.skills_detected = s.skills_detected ∧
    (complete s now).2.transcripts = s.transcripts := by
  simp only [complete]
  split_ifs <;> exact ⟨rfl, rfl, rfl⟩

theorem countP_mem_of_nodup (names : List String) :
    ∀ keys : List String, names.Nodup → keys.Nodup → (∀ k ∈ keys, k ∈ names) →
      names.countP (fun n => decide (n ∈ keys)) = keys.length := by
  induction names with
  | nil =>
    intro keys _ _ hsub
    have hkeys : keys = [] :=
      List.eq_nil_iff_forall_not_mem.mpr (fun k hk => by simpa using hsub k hk)
    simp [hkeys]
  | cons m ms ih =>
    intro keys hnn hkn hsub
    have hm' : m ∉ ms := (List.nodup_cons.mp hnn).1
    have hms : ms.Nodup := (List.nodup_cons.mp hnn).2
    by_cases hm : m ∈ keys
    · have hcongr : ms.countP (fun n => decide (n ∈ keys)) =
          ms.countP (fun n => decide (n ∈ keys.erase m)) := by
        refine List.countP_congr ?_
        intro x hx
        have hxm : x ≠ m := fun hxe => hm' (hxe ▸ hx)
        simp [hkn.mem_erase_iff, hxm]
      have hih := ih (keys.erase m) hms (hkn.erase m) ?_
      · rw [List.countP_cons]
        rw [hcongr, hih, List.length_erase_of_mem hm]
        have hpos : 0 < keys.length := List.length_pos_of_mem hm
        simp [hm]
        omega
      · intro k hk
        have hk2 := hkn.mem_erase_iff.mp hk
        rcases List.mem_cons.mp (hsub k hk2.2) with h1 | h1
        · exact absurd h1 hk2.1
        · exact h1
    · rw [List.countP_cons]
      have hih := ih keys hms hkn ?_
      · simp [hm, hih]
      · intro k hk
        rcases List.mem_cons.mp (hsub k hk) with h1 | h1
        · exact absurd (h1 ▸ hk) hm
        · exact h1

theorem length_filterMap_eq {α β : Type} (l : List α) (f : α → Option β)
    (h : ∀ a ∈ l, (f a).isSome) : (l.filterMap f).length = l.length := by
  induction l with
  | nil => rfl
  | cons a t ih =>
    obtain ⟨b, hb⟩ := Option.isSome_iff_exists.mp (h a (List.mem_cons_self a t))
    simp [List.filterMap_cons, hb,
      ih (fun x hx => h x (List.mem_cons_of_mem _ hx))]

theorem buildReport_has_length (s : SessionState)
    (hsub : ∀ k ∈ s.skills_detected.map Prod.fst, k ∈ s.skills.map Skill.name) :
    (buildReport s).skills_has.length = s.skills_detected.length := by
  simp only [buildReport]
  apply length_filterMap_eq
  intro p hp
  rw [Option.isSome_map', List.find?_isSome]
  have hmem : p.1 ∈ s.skills.map Skill.name :=
    hsub p.1 (List.mem_map_of_mem Prod.fst hp)
  obtain ⟨sk, hsk, he⟩ := List.mem_map.mp hmem
  exact ⟨sk, hsk, by simp [he]⟩

theorem detected_le_total (s : SessionState)
    (hkeys : (s.skills_detected.map Prod.fst).Nodup)
    (hsub : ∀ k ∈ s.skills_detected.map Prod.fst, k ∈ s.skills.map Skill.name)
    (hnames : (s.skills.map Skill.name).Nodup) :
    s.skills_detected.length ≤ s.skills.length := by
  have hc := countP_mem_of_nodup (s.skills.map Skill.name)
    (s.skills_detected.map Prod.fst) hnames hkeys hsub
  calc s.skills_detected.length
      = (s.skills_detected.map Prod.fst).length := by simp
    _ = (s.skills.map Skill.name).countP
          (fun n => decide (n ∈ s.skills_detected.map Prod.fst)) := hc.symm
    _ ≤ (s.skills.map Skill.name).length := List.countP_le_length _
    _ = s.skills.length := by simp

theorem buildReport_missing_length (s : SessionState)
    (hkeys : (s.skills_detected.map Prod.fst).Nodup)
    (hsub : ∀ k ∈ s.skills_detected.map Prod.fst, k ∈ s.skills.map Skill.name)
    (hnames : (s.skills.map Skill.name).Nodup) :
    (buildReport s).skills_missing.length =
      s.skills.length - s.skills_detected.length := by
  have hsplit := List.length_eq_length_filter_add
    (l := s.skills) (fun sk => decide (sk.name ∈ s.skills_detected.map Prod.fst))
  have hcount : (s.skills.filter
      (fun sk => decide (sk.name ∈ s.skills_detected.map Prod.fst))).length =
      s.skills_detected.length := by
    rw [← List.countP_eq_length_filter]
    have hmapped := List.countP_map
      (fun n => decide (n ∈ s.skills_detected.map Prod.fst)) Skill.name s.skills
    have hc := countP_mem_of_nodup (s.skills.map Skill.name)
      (s.skills_detected.map Prod.fst) hnames hkeys hsub
    rw [hmapped] at hc
    rw [show (fun sk => decide (sk.name ∈ s.skills_detected.map Prod.fst)) =
      ((fun n => decide (n ∈ s.skills_detected.map Prod.fst)) ∘ Skill.name) from rfl]
    rw [hc]
    simp
  simp only [buildReport, List.length_map]
  have heq : (s.skills.filter
      (fun sk => decide (sk.name ∉ s.skills_detected.map Prod.fst))).length =
      (s.skills.filter
        (fun sk => !decide (sk.name ∈ s.skills_detected.map Prod.fst))).length := by
    simp only [decide_not]
  rw [heq]
  omega

theorem reachable_inv (s : SessionState) (hr : Reachable s) :
    (s.skills_detected.map Prod.fst).Nodup ∧
    (∀ k ∈ s.skills_detected.map Prod.fst, k ∈ s.skills.map Skill.name) ∧
    (s.skills.map Skill.name).Nodup := by
  induction hr with
  | start skills questions now hs hq hnd =>
    refine ⟨by simp [startSession], ?_, by simpa [startSession] using hnd⟩
    intro k hk
    simp [startSession] at hk
  | submit s qi trans av cl det ts hr ih =>
    rcases submitAnswer_state_cases s qi trans av cl det ts with heq | heq
    · rw [heq]; exact ih
    · rw [heq, processTurn_eq]
      refine ⟨?_, ?_, ?_⟩
      · rw [finishTurn_detected]
        exact mergeDetections_keys_nodup _ _ _ _ ih.1
      · intro k hk
        rw [finishTurn_detected] at hk
        rw [finishTurn_skills]
        rcases mergeDetections_keys_subset _ _ _ _ _ hk with h | h
        · exact ih.2.1 k h
        · exact (turnExtract_mem s trans av cl det k h).1
      · rw [finishTurn_skills]
        exact ih.2.2
  | done s now hr ih =>
    obtain ⟨h1, h2, _⟩ := complete_fields s now
    rw [h1, h2]
    exact ih

theorem submitAnswer_ok_inv (s : SessionState) (qi : Nat)
    (trans : TranscriptionOutcome) (av : Bool) (cl : String → String)
    (det : String → List String → List String) (ts : Nat) (r : AnswerResult)
    (h : (submitAnswer s qi trans av cl det ts).1 = Except.ok r) :
    s.status = SessionStatus.ACTIVE ∧ qi = s.current_question_index ∧
    (submitAnswer s qi trans av cl det ts).2 =
      (processTurn s trans av cl det ts).2 ∧
    r = (processTurn s trans av cl det ts).1 := by
  by_cases hA : s.status = SessionStatus.ACTIVE
  · by_cases hq : qi = s.current_question_index
    · have hacc := submitAnswer_accepted s qi trans av cl det ts hA hq
      refine ⟨hA, hq, by rw [hacc], ?_⟩
      rw [hacc] at h
      exact (Except.ok.inj h).symm
    · rw [submitAnswer_stale s qi trans av cl det ts hA hq] at h
      simp at h
  · rw [submitAnswer_not_active s qi trans av cl det ts hA] at h
    simp at h

theorem submitAnswer_transcripts_len (s : SessionState) (qi : Nat)
    (trans : TranscriptionOutcome) (av : Bool) (cl : String → String)
    (det : String → List String → List String) (ts : Nat) :
    (submitAnswer s qi trans av cl det ts).2.transcripts.length =
      s.transcripts.length +
        (if (submitAnswer s qi trans av cl det ts).1.isOk then 1 else 0) := by
  by_cases hA : s.status = SessionStatus.ACTIVE
  · by_cases hq : qi = s.current_question_index
    · rw [submitAnswer_accepted s qi trans av cl det ts hA hq]
      simp only [Except.isOk, Except.toBool, processTurn_eq, finishTurn_transcripts]
      simp
    · rw [submitAnswer_stale s qi trans av cl det ts hA hq]
      simp only [Except.isOk, Except.toBool]
      simp
  · rw [submitAnswer_not_active s qi trans av cl det ts hA]
    simp only [Except.isOk, Except.toBool]
    simp

theorem runTurns_transcripts (turns : List TurnInput) :
    ∀ t0 : SessionState, (runTurns t0 turns).1.transcripts.length =
      t0.transcripts.length + (runTurns t0 turns).2 := by
  induction turns with
  | nil => intro t0; simp [runTurns]
  | cons i rest ih =>
    intro t0
    simp only [runTurns]
    rw [ih]
    rw [submitAnswer_transcripts_len t0 i.question_index i.trans
      i.cleanerAvailable i.cleaner i.detector i.ts]
    by_cases hok : (submitAnswer t0 i.question_index i.trans i.cleanerAvailable
        i.cleaner i.detector i.ts).1.isOk
    · simp [hok]
      omega
    · simp [hok]

theorem percentageOf_mono (d1 d2 t : Nat) (h : d1 ≤ d2) :
    percentageOf d1 t ≤ percentageOf d2 t := by
  apply Nat.div_le_div_right
  have : 100 * d1 ≤ 100 * d2 := Nat.mul_le_mul_left 100 h
  omega

end InterviewEngine

namespace AIInterviewRoom

theorem formatQuestionsFrom_getElem (skills : List RoomSkill) (qs : List String) :
    ∀ (k i : Nat), (formatQuestionsFrom skills k qs)[i]? =
      (qs[i]?).map (fun q =>
        ⟨k + i + 1, q, ((skills.drop ((k + i) * 2)).take 3).map RoomSkill.skill⟩) := by
  induction qs with
  | nil => intro k i; simp [formatQuestionsFrom]
  | cons q rest ih =>
    intro k i
    cases i with
    | zero => simp [formatQuestionsFrom]
    | succ n =>
      simp only [formatQuestionsFrom, List.getElem?_cons_succ]
      rw [ih (k + 1) n]
      have harith : k + 1 + n = k + (n + 1) := by omega
      rw [harith]

theorem roomStep_analyze (st : RoomState) (r : AnalysisResult) :
    (roomStep st (RoomEvent.analyzeSuccess r)).allResults =
      st.allResults ++ [r] := rfl

theorem roomStep_next_allResults (st : RoomState) :
    (roomStep st RoomEvent.next).allResults = st.allResults := by
  simp only [roomStep]
  split_ifs <;> rfl

theorem runRoom_allResults_length (events : List RoomEvent) :
    ∀ st : RoomState, (runRoom st events).allResults.length =
      st.allResults.length + countAnalyzed events := by
  induction events with
  | nil => intro st; simp [runRoom, countAnalyzed]
  | cons e rest ih =>
    intro st
    have hrun : runRoom st (e :: rest) = runRoom (roomStep st e) rest := rfl
    rw [hrun, ih]
    cases e with
    | analyzeSuccess r =>
      rw [roomStep_analyze]
      simp [countAnalyzed, List.countP_cons]
      omega
    | retry =>
      simp [roomStep, countAnalyzed, List.countP_cons]
    | next =>
      rw [roomStep_next_allResults]
      simp [countAnalyzed, List.countP_cons]

end AIInterviewRoom

namespace InterviewEngine

/-- C1: For every `submitAnswer` call accepted on an ACTIVE session, the
termination decision is made in a fixed order: if the detected skills cover
all skills the session becomes COMPLETED with `all_skills_detected = true`
(even when the current question is also the last one); otherwise, if the
current question index is the last index, the session becomes COMPLETED with
`all_skills_detected = false`; otherwise the index is incremented by one and
the session stays ACTIVE. -/
theorem submitAnswer_termination_order (s : SessionState)
    (trans : TranscriptionOutcome) (av : Bool) (cl : String → String)
    (det : String → List String → List String) (ts : Nat)
    (r : AnswerResult) (s' : SessionState)
    (hA : s.status = SessionStatus.ACTIVE)
    (hE : submitAnswer s s.current_question_index trans av cl det ts =
      (Except.ok r, s')) :
    ((∀ sk ∈ s'.skills, sk.name ∈ s'.skills_detected.map Prod.fst) →
        s'.status = SessionStatus.COMPLETED ∧ r.all_skills_detected = true) ∧
    ((¬ ∀ sk ∈ s'.skills, sk.name ∈ s'.skills_detected.map Prod.fst) →
        s.current_question_index = s.questions.length - 1 →
        s'.status = SessionStatus.COMPLETED ∧ r.all_skills_detected = false) ∧
    ((¬ ∀ sk ∈ s'.skills, sk.name ∈ s'.skills_detected.map Prod.fst) →
        s.current_question_index ≠ s.questions.length - 1 →
        s'.status = SessionStatus.ACTIVE ∧
        s'.current_question_index = s.current_question_index + 1 ∧
        r.all_skills_detected = false) := by
  rw [submitAnswer_accepted s s.current_question_index trans av cl det ts hA
    rfl] at hE
  have h1 : (Except.ok (processTurn s trans av cl det ts).1 :
      Except SubmitError AnswerResult) = Except.ok r := congrArg Prod.fst hE
  have h2 : (processTurn s trans av cl det ts).2 = s' := congrArg Prod.snd hE
  have hr : r = (processTurn s trans av cl det ts).1 := (Except.ok.inj h1).symm
  subst hr
  subst h2
  rw [processTurn_eq, finishTurn_skills, finishTurn_detected]
  refine ⟨fun hc => finishTurn_covered s _ _ _ ts hc,
    fun hnc hl => finishTurn_exhausted s _ _ _ ts hnc hl,
    fun hnc hl => ?_⟩
  obtain ⟨ha, hb, hcr⟩ := finishTurn_advanceIdx s _ _ _ ts hnc hl
  exact ⟨ha.trans hA, hb, hcr⟩

theorem submitAnswer_termination_order_witness :
    sampleFinal.status = SessionStatus.COMPLETED ∧
    sampleResult.all_skills_detected = true :=
  (submitAnswer_termination_order sampleSession (TranscriptionOutcome.ok "I weld")
    true id sampleDetector 5 sampleResult sampleFinal rfl (by decide)).1
    (by decide)

/-- C2 counterexample: a mismatched question index on a COMPLETED session
fails with `InvalidStateError`, not `StaleQuestionError` — the ACTIVE check
runs first — so the claim as stated over every session is false. -/
theorem stale_claim_counterexample :
    (1 : Nat) ≠ completedSample.current_question_index ∧
    (submitAnswer completedSample 1 TranscriptionOutcome.failed true id
      sampleDetector 0).1 ≠ Except.error SubmitError.StaleQuestionError ∧
    (submitAnswer completedSample 1 TranscriptionOutcome.failed true id
      sampleDetector 0).1 = Except.error SubmitError.InvalidStateError := by
  refine ⟨by decide, ?_, ?_⟩
  · rw [submitAnswer_not_active completedSample 1 TranscriptionOutcome.failed
      true id sampleDetector 0 (by decide)]
    decide
  · rw [submitAnswer_not_active completedSample 1 TranscriptionOutcome.failed
      true id sampleDetector 0 (by decide)]

/-- C2 (amended): for every ACTIVE session, a `submitAnswer` call whose
question index differs from `current_question_index` fails with
`StaleQuestionError` and leaves the session completely unchanged — no
transcript appended, `skills_detected` unmodified, index and status keep their
prior values. -/
theorem stale_submission_no_mutation (s : SessionState) (qi : Nat)
    (trans : TranscriptionOutcome) (av : Bool) (cl : String → String)
    (det : String → List String → List String) (ts : Nat)
    (hA : s.status = SessionStatus.ACTIVE)
    (hq : qi ≠ s.current_question_index) :
    (submitAnswer s qi trans av cl det ts).1 =
      Except.error SubmitError.StaleQuestionError ∧
    (submitAnswer s qi trans av cl det ts).2 = s ∧
    (submitAnswer s qi trans av cl det ts).2.transcripts = s.transcripts ∧
    (submitAnswer s qi trans av cl det ts).2.skills_detected =
      s.skills_detected ∧
    (submitAnswer s qi trans av cl det ts).2.current_question_index =
      s.current_question_index ∧
    (submitAnswer s qi trans av cl det ts).2.status = s.status := by
  rw [submitAnswer_stale s qi trans av cl det ts hA hq]
  exact ⟨rfl, rfl, rfl, rfl, rfl, rfl⟩

theorem stale_submission_no_mutation_witness :
    (submitAnswer sampleSession 1 TranscriptionOutcome.failed true id
      sampleDetector 0).1 = Except.error SubmitError.StaleQuestionError ∧
    (submitAnswer sampleSession 1 TranscriptionOutcome.failed true id
      sampleDetector 0).2 = sampleSession :=
  ⟨(stale_submission_no_mutation sampleSession 1 TranscriptionOutcome.failed
      true id sampleDetector 0 rfl (by decide)).1,
   (stale_submission_no_mutation sampleSession 1 TranscriptionOutcome.failed
      true id sampleDetector 0 rfl (by decide)).2.1⟩

/-- C3: skill detection merging is idempotent with first-detection-wins: any
skill name already recorded keeps its detection record unchanged through any
accepted `submitAnswer` call (no matter what the detector returns), no
duplicate entry is added, and in every reachable session each skill name
appears at most once in `skills_detected`. -/
theorem skill_detection_idempotent (s : SessionState) (qi : Nat)
    (trans : TranscriptionOutcome) (av : Bool) (cl : String → String)
    (det : String → List String → List String) (ts : Nat)
    (r : AnswerResult) (s' : SessionState)
    (hE : submitAnswer s qi trans av cl det ts = (Except.ok r, s')) :
    (∀ n ∈ s.skills_detected.map Prod.fst,
        lookupKey s'.skills_detected n = lookupKey s.skills_detected n) ∧
    ((s.skills_detected.map Prod.fst).Nodup →
        (s'.skills_detected.map Prod.fst).Nodup) ∧
    (∀ t : SessionState, Reachable t →
        (t.skills_detected.map Prod.fst).Nodup) := by
  have h1 : (submitAnswer s qi trans av cl det ts).1 = Except.ok r :=
    congrArg Prod.fst hE
  have h2 : (submitAnswer s qi trans av cl det ts).2 = s' :=
    congrArg Prod.snd hE
  obtain ⟨hA, hq, hs2, hr⟩ := submitAnswer_ok_inv s qi trans av cl det ts r h1
  have hs' : s' = (processTurn s trans av cl det ts).2 := h2.symm.trans hs2
  subst hs'
  rw [processTurn_eq, finishTurn_detected]
  exact ⟨fun n hn => mergeDetections_lookup _ _ _ _ n hn,
    fun hnd => mergeDetections_keys_nodup _ _ _ _ hnd,
    fun t ht => (reachable_inv t ht).1⟩

theorem skill_detection_idempotent_witness :
    lookupKey midFinal.skills_detected "welding" =
      lookupKey midSession.skills_detected "welding" :=
  (skill_detection_idempotent midSession 1 (TranscriptionOutcome.ok "osha talk")
    true id sampleDetector 8 midResult midFinal (by decide)).1 "welding"
    (by decide)

/-- C4: every accepted `submitAnswer` call appends exactly one transcript
record, even on total transcription failure — in that case the record has
empty text and empty detections, the result carries the transcription-failed
flag, and the session still advances (completes or increments the index); over
any sequence of calls the transcript count equals the number of accepted
submissions. -/
theorem transcript_recorded_every_turn (s : SessionState)
    (trans : TranscriptionOutcome) (av : Bool) (cl : String → String)
    (det : String → List String → List String) (ts : Nat)
    (hA : s.status = SessionStatus.ACTIVE) :
    (submitAnswer s s.current_question_index trans av cl det
        ts).2.transcripts.length = s.transcripts.length + 1 ∧
    (trans = TranscriptionOutcome.failed →
      (submitAnswer s s.current_question_index trans av cl det
          ts).2.transcripts =
        s.transcripts ++ [⟨s.current_question_index, "", "", []⟩] ∧
      (∀ rr, (submitAnswer s s.current_question_index trans av cl det ts).1 =
          Except.ok rr → rr.transcription_failed = true) ∧
      ((submitAnswer s s.current_question_index trans av cl det ts).2.status =
          SessionStatus.COMPLETED ∨
       (submitAnswer s s.current_question_index trans av cl det
          ts).2.current_question_index = s.current_question_index + 1)) ∧
    (∀ (turns : List TurnInput) (t0 : SessionState),
      (runTurns t0 turns).1.transcripts.length =
        t0.transcripts.length + (runTurns t0 turns).2) := by
  have hacc := submitAnswer_accepted s s.current_question_index trans av cl det
    ts hA rfl
  refine ⟨?_, ?_, fun turns t0 => runTurns_transcripts turns t0⟩
  · rw [hacc, processTurn_eq, finishTurn_transcripts]
    simp
  · intro hf
    subst hf
    have hext := turnExtract_failed s TranscriptionOutcome.failed av cl det rfl
    refine ⟨?_, ?_, ?_⟩
    · rw [hacc, processTurn_eq, hext, finishTurn_transcripts]
    · intro rr hrr
      rw [hacc] at hrr
      have hrr2 : rr = (processTurn s TranscriptionOutcome.failed av cl det
          ts).1 := (Except.ok.inj hrr).symm
      subst hrr2
      rw [processTurn_eq, hext, finishTurn_tfailed]
      decide
    · rw [hacc, processTurn_eq]
      rcases finishTurn_advance s _ _ _ ts with h | h
      · exact Or.inl h
      · exact Or.inr h

theorem transcript_recorded_every_turn_witness :
    (submitAnswer sampleSession 0 TranscriptionOutcome.failed true id
        sampleDetector 5).2.transcripts.length =
      sampleSession.transcripts.length + 1 ∧
    (submitAnswer sampleSession 0 TranscriptionOutcome.failed true id
        sampleDetector 5).2.transcripts =
      sampleSession.transcripts ++ [⟨0, "", "", []⟩] :=
  ⟨(transcript_recorded_every_turn sampleSession TranscriptionOutcome.failed
      true id sampleDetector 5 rfl).1,
   ((transcript_recorded_every_turn sampleSession TranscriptionOutcome.failed
      true id sampleDetector 5 rfl).2.1 rfl).1⟩

end InterviewEngine

namespace InterviewEngine

/-- C5: in every reachable session state the recorded detected skill names are
a subset of the session's fixed skill names — the detector is only ever
offered currently undetected candidates and out-of-set names are discarded,
so no detector behaviour can inject a foreign name. -/
theorem detected_keys_subset_skills (s : SessionState) (hr : Reachable s) :
    ∀ k ∈ detectedKeys s, k ∈ skillNames s := by
  intro k hk
  exact (reachable_inv s hr).2.1 k hk

theorem detected_keys_subset_skills_witness :
    "welding" ∈ skillNames (submitAnswer sampleSession 0
      (TranscriptionOutcome.ok "I weld") true id sampleDetector 5).2 :=
  detected_keys_subset_skills _
    (Reachable.submit sampleSession 0 (TranscriptionOutcome.ok "I weld") true
      id sampleDetector 5
      (Reachable.start sampleSkills ["q1", "q2"] 0 (by decide) (by decide)
        (by decide)))
    "welding" (by decide)

/-- C6: for every reachable session state the derived report satisfies
`total_skills = len(skills_has) + len(skills_missing)` and
`coverage = len(skills_has) / total_skills`, with coverage a fraction in the
closed interval 0..1. -/
theorem report_consistency (s : SessionState) (hr : Reachable s) :
    (buildReport s).total_skills =
      (buildReport s).skills_has.length +
        (buildReport s).skills_missing.length ∧
    (buildReport s).coverage =
      ((buildReport s).skills_has.length : ℚ) /
        ((buildReport s).total_skills : ℚ) ∧
    0 ≤ (buildReport s).coverage ∧ (buildReport s).coverage ≤ 1 := by
  obtain ⟨hkeys, hsub, hnames⟩ := reachable_inv s hr
  have hhas := buildReport_has_length s hsub
  have hmiss := buildReport_missing_length s hkeys hsub hnames
  have hle := detected_le_total s hkeys hsub hnames
  have htot : (buildReport s).total_skills = s.skills.length := rfl
  have hcov : (buildReport s).coverage =
      (s.skills_detected.length : ℚ) / (s.skills.length : ℚ) := rfl
  refine ⟨?_, ?_, ?_, ?_⟩
  · rw [htot, hhas, hmiss]
    omega
  · rw [hcov, hhas, htot]
  · rw [hcov]
    positivity
  · rw [hcov]
    rcases Nat.eq_zero_or_pos s.skills.length with h0 | hpos
    · have hz : s.skills_detected.length = 0 := by omega
      simp [h0, hz]
    · apply (div_le_one (by exact_mod_cast hpos)).mpr
      exact_mod_cast hle

theorem report_consistency_witness :
    (buildReport sampleOut.2).total_skills =
      (buildReport sampleOut.2).skills_has.length +
        (buildReport sampleOut.2).skills_missing.length ∧
    (buildReport sampleOut.2).coverage =
      ((buildReport sampleOut.2).skills_has.length : ℚ) /
        ((buildReport sampleOut.2).total_skills : ℚ) ∧
    0 ≤ (buildReport sampleOut.2).coverage ∧
    (buildReport sampleOut.2).coverage ≤ 1 :=
  report_consistency sampleOut.2
    (Reachable.submit sampleSession 0 (TranscriptionOutcome.ok "I weld") true
      id sampleDetector 5
      (Reachable.start sampleSkills ["q1", "q2"] 0 (by decide) (by decide)
        (by decide)))

/-- C7: within a session the progress percentage returned by successive
accepted `submitAnswer` calls is non-decreasing — the detected set only grows
and the skill total is fixed, so the integer-rounded percentage of a later
turn is at least that of the turn before it. -/
theorem progress_monotone (s s1 s2 : SessionState) (qi1 qi2 : Nat)
    (t1 t2 : TranscriptionOutcome) (a1 a2 : Bool) (c1 c2 : String → String)
    (d1 d2 : String → List String → List String) (ts1 ts2 : Nat)
    (r1 r2 : AnswerResult)
    (hE1 : submitAnswer s qi1 t1 a1 c1 d1 ts1 = (Except.ok r1, s1))
    (hE2 : submitAnswer s1 qi2 t2 a2 c2 d2 ts2 = (Except.ok r2, s2)) :
    r1.progress.percentage ≤ r2.progress.percentage := by
  have h11 : (submitAnswer s qi1 t1 a1 c1 d1 ts1).1 = Except.ok r1 :=
    congrArg Prod.fst hE1
  have h12 : (submitAnswer s qi1 t1 a1 c1 d1 ts1).2 = s1 :=
    congrArg Prod.snd hE1
  have h21 : (submitAnswer s1 qi2 t2 a2 c2 d2 ts2).1 = Except.ok r2 :=
    congrArg Prod.fst hE2
  obtain ⟨_, _, hs1, hr1⟩ := submitAnswer_ok_inv s qi1 t1 a1 c1 d1 ts1 r1 h11
  obtain ⟨_, _, _, hr2⟩ := submitAnswer_ok_inv s1 qi2 t2 a2 c2 d2 ts2 r2 h21
  have hs1' : s1 = (processTurn s t1 a1 c1 d1 ts1).2 := h12.symm.trans hs1
  have hskills : s1.skills = s.skills := by
    rw [hs1', processTurn_eq, finishTurn_skills]
  have hdet : s1.skills_detected =
      mergeDetections s.skills_detected (turnExtract s t1 a1 c1 d1).2.2
        s.current_question_index ts1 := by
    rw [hs1', processTurn_eq, finishTurn_detected]
  rw [hr1, hr2, processTurn_eq, processTurn_eq, finishTurn_progress,
    finishTurn_progress]
  show percentageOf
      (mergeDetections s.skills_detected (turnExtract s t1 a1 c1 d1).2.2
        s.current_question_index ts1).length s.skills.length ≤
    percentageOf
      (mergeDetections s1.skills_detected (turnExtract s1 t2 a2 c2 d2).2.2
        s1.current_question_index ts2).length s1.skills.length
  rw [← hdet, hskills]
  exact percentageOf_mono _ _ _
    (mergeDetections_length_ge s1.skills_detected _ _ _)

theorem progress_monotone_witness :
    turn1Result.progress.percentage ≤ turn2Result.progress.percentage :=
  progress_monotone twoSkillSession turn1State turn2State 0 1
    (TranscriptionOutcome.ok "a") (TranscriptionOutcome.ok "b") true true id id
    detectWelding detectOsha 7 9 turn1Result turn2Result (by decide) (by decide)

/-- C8: `complete` is idempotent: the first call forces the status to
COMPLETED if it is not already, and every later call on the already-COMPLETED
state returns the identical report and the identical state, with no further
state change. -/
theorem complete_idempotent (s : SessionState) (n1 n2 : Nat) :
    (complete s n1).2.status = SessionStatus.COMPLETED ∧
    complete (complete s n1).2 n2 =
      ((complete s n1).1, (complete s n1).2) := by
  by_cases h : s.status = SessionStatus.COMPLETED
  · simp [complete, h]
  · simp [complete, h]

theorem complete_idempotent_witness :
    (complete midSession 11).2.status = SessionStatus.COMPLETED ∧
    complete (complete midSession 11).2 12 =
      ((complete midSession 11).1, (complete midSession 11).2) :=
  complete_idempotent midSession 11 12

end InterviewEngine

namespace AIInterviewRoom

/-- C9: in AIInterviewRoom's initialization the question at zero-based index
`idx` gets `expectedKeywords` equal to the skill names of the slice
`skills.slice(idx*2, idx*2+3)` — at most 3 names, sharing the name at absolute
index `idx*2+2` (when it exists) with the next question's slice; whenever
`2*idx >= len(skills)` the list is empty and `analyzeResponse` omits the
`expected_keywords` form field entirely. -/
theorem expectedKeywords_slice (skills : List RoomSkill)
    (questions : List String) (idx : Nat) (q : RoomQuestion)
    (hq : (formatQuestions skills questions)[idx]? = some q) :
    q.expectedKeywords = ((skills.drop (idx * 2)).take 3).map RoomSkill.skill ∧
    q.expectedKeywords.length ≤ 3 ∧
    (skills.length ≤ idx * 2 →
      q.expectedKeywords = [] ∧ expectedKeywordsField q = none) ∧
    (∀ q', (formatQuestions skills questions)[idx + 1]? = some q' →
      idx * 2 + 2 < skills.length →
      ∃ n, n ∈ q.expectedKeywords ∧ n ∈ q'.expectedKeywords) := by
  have hfmt := formatQuestionsFrom_getElem skills questions 0 idx
  have hq' : (formatQuestionsFrom skills 0 questions)[idx]? = some q := hq
  rw [hfmt] at hq'
  simp only [Nat.zero_add] at hq'
  cases hqq : questions[idx]? with
  | none => rw [hqq] at hq'; simp at hq'
  | some qt =>
    rw [hqq] at hq'
    have hqv := Option.some.inj hq'
    subst hqv
    refine ⟨rfl, ?_, ?_, ?_⟩
    · simp only [List.length_map, List.length_take]
      exact le_trans (Nat.min_le_left _ _) (le_refl 3)
    · intro hle
      have hdrop : skills.drop (idx * 2) = [] := List.drop_eq_nil_of_le hle
      refine ⟨by simp [hdrop], ?_⟩
      simp [expectedKeywordsField, hdrop]
    · intro q' hq2 hlt
      have hfmt2 := formatQuestionsFrom_getElem skills questions 0 (idx + 1)
      have hq2' : (formatQuestionsFrom skills 0 questions)[idx + 1]? =
        some q' := hq2
      rw [hfmt2] at hq2'
      simp only [Nat.zero_add] at hq2'
      cases hqq2 : questions[idx + 1]? with
      | none => rw [hqq2] at hq2'; simp at hq2'
      | some qt2 =>
        rw [hqq2] at hq2'
        have hqv2 := Option.some.inj hq2'
        subst hqv2
        refine ⟨(skills.get ⟨idx * 2 + 2, hlt⟩).skill, ?_, ?_⟩
        · apply List.mem_map_of_mem
          apply List.getElem?_mem (n := 2)
          rw [List.getElem?_take]
          simp only [show (2 : Nat) < 3 from by omega, if_true]
          rw [List.getElem?_drop]
          exact List.getElem?_eq_getElem hlt
        · apply List.mem_map_of_mem
          apply List.getElem?_mem (n := 0)
          rw [List.getElem?_take]
          simp only [show (0 : Nat) < 3 from by omega, if_true]
          rw [List.getElem?_drop]
          have harith : (idx + 1) * 2 + 0 = idx * 2 + 2 := by omega
          rw [harith]
          exact List.getElem?_eq_getElem hlt

theorem expectedKeywords_slice_witness :
    (⟨2, "q1", ["s2", "s3", "s4"]⟩ : RoomQuestion).expectedKeywords =
      ((sampleRoomSkills.drop (1 * 2)).take 3).map RoomSkill.skill ∧
    (⟨4, "q3", []⟩ : RoomQuestion).expectedKeywords = [] ∧
    expectedKeywordsField ⟨4, "q3", []⟩ = none :=
  ⟨(expectedKeywords_slice sampleRoomSkills sampleRoomQs 1
      ⟨2, "q1", ["s2", "s3", "s4"]⟩ (by decide)).1,
   ((expectedKeywords_slice sampleRoomSkills sampleRoomQs 3
      ⟨4, "q3", []⟩ (by decide)).2.2.1 (by decide)).1,
   ((expectedKeywords_slice sampleRoomSkills sampleRoomQs 3
      ⟨4, "q3", []⟩ (by decide)).2.2.1 (by decide)).2⟩

/-- C10: every successful `analyzeResponse` appends exactly one entry to
`allResults` while `Try Again` and question navigation append none; `Try
Again` is offered only while the shown latest result has `isCorrect = false`;
advancing past the last question hands exactly the accumulated `allResults`
to `onComplete`; over any event trace the final length equals the number of
successful analyses, and with retries it can exceed the question count. -/
theorem allResults_accumulation :
    (∀ (st : RoomState) (r : AnalysisResult),
      (roomStep st (RoomEvent.analyzeSuccess r)).allResults =
        st.allResults ++ [r]) ∧
    (∀ st : RoomState, (roomStep st RoomEvent.retry).allResults =
      st.allResults) ∧
    (∀ st : RoomState, (roomStep st RoomEvent.next).allResults =
      st.allResults) ∧
    (∀ st : RoomState, ¬ st.currentQuestionIndex < st.questions.length - 1 →
      (roomStep st RoomEvent.next).completedWith = some st.allResults) ∧
    (∀ st : RoomState, canRetry st = true →
      ∃ r, st.analysisResult = some r ∧ r.isCorrect = false) ∧
    (∀ (events : List RoomEvent) (st : RoomState),
      (runRoom st events).allResults.length =
        st.allResults.length + countAnalyzed events) ∧
    (runRoom sampleRoom sampleTrace).completedWith =
      some [badResult, goodResult] ∧
    sampleRoom.questions.length < [badResult, goodResult].length := by
  refine ⟨fun st r => roomStep_analyze st r, fun st => rfl,
    fun st => roomStep_next_allResults st, ?_, ?_,
    fun evs st => runRoom_allResults_length evs st, by decide, by decide⟩
  · intro st h
    simp only [roomStep, if_neg h]
  · intro st h
    simp only [canRetry] at h
    cases har : st.analysisResult with
    | none => rw [har] at h; simp at h
    | some r =>
      rw [har] at h
      simp at h
      exact ⟨r, rfl, by simpa using h.2⟩

theorem allResults_accumulation_witness :
    (roomStep sampleRoom RoomEvent.next).completedWith =
      some sampleRoom.allResults ∧
    (runRoom sampleRoom sampleTrace).allResults.length =
      sampleRoom.allResults.length + countAnalyzed sampleTrace :=
  ⟨allResults_accumulation.2.2.2.1 sampleRoom (by decide),
   allResults_accumulation.2.2.2.2.2.1 sampleTrace sampleRoom⟩

end AIInterviewRoom
